import Mathlib

/-
Verification of the document indexing and retrieval-augmented query engine
of the precast cost-management backend.

The definitions below are a shallow embedding of the TypeScript source:
  - `EmbeddingService.chunkText`, `prepareText`, `cosineSimilarity`
    (src/services/cost-calculator.ts / embeddings service)
  - `RAGService.indexDocument`, `query`, `retrieveSourceContext`,
    `getCostContext`, `generateAnswer`, `extractCostBreakdown`
JavaScript strings are Lean `String`s, JS numbers appearing in metadata and
cost rows are modelled as `Rat` (exact arithmetic stands in for IEEE floats),
fallible external calls are `Except` values, and possible non-termination of
the chunking `while` loop is made explicit with a fuel parameter.
-/

namespace Precast

/-- Whitespace characters matched by the JavaScript regex class `\s`
(the ASCII ones, which are the only ones relevant here). -/
def isWsChar (c : Char) : Bool :=
  c = ' ' ∨ c = '\t' ∨ c = '\n' ∨ c = '\r' ∨ c = '\x0b' ∨ c = '\x0c'

/-- Helper for `splitWs`: walks the character list, closing the current word
when a whitespace run starts and skipping the rest of the run.  `inWs` records
whether the previous character was part of a whitespace run. -/
def splitWsGo : List Char → List Char → Bool → List String
  | [], cur, _ => [String.mk cur.reverse]
  | c :: rest, cur, inWs =>
    if isWsChar c then
      if inWs then splitWsGo rest cur true
      else String.mk cur.reverse :: splitWsGo rest [] true
    else splitWsGo rest (c :: cur) false

/-- JavaScript `text.split(/\s+/)`: split on maximal whitespace runs.
Note `"".split(/\s+/) = [""]`, and leading/trailing whitespace contributes an
empty first/last element, exactly as in JS. -/
def splitWs (s : String) : List String :=
  splitWsGo s.data [] false

/-- Clamp a possibly negative JS array index the way `Array.prototype.slice`
does: negative indices count from the end, and everything is clamped into
`[0, len]`. -/
def jsIndexClamp (len : Nat) (x : Int) : Nat :=
  if x < 0 then ((len : Int) + x).toNat else min x.toNat len

/-- JavaScript `arr.slice(s, e)` for a list of strings. -/
def jsSlice (l : List String) (s e : Int) : List String :=
  let s' := jsIndexClamp l.length s
  let e' := jsIndexClamp l.length e
  (l.drop s').take (e' - s')

/-- One step of `EmbeddingService.chunkText`'s `while (i < words.length)`
loop, with an explicit fuel parameter: `none` means the loop has not finished
within `fuel` iterations.  The loop variable `i` is an `Int` because the
advance `chunkSize - overlap` can be zero or negative. -/
def chunkGo (words : List String) (chunkSize overlap : Int) :
    Nat → Int → List String → Option (List String)
  | 0, _, _ => none
  | fuel + 1, i, chunks =>
    if i < (words.length : Int) then
      chunkGo words chunkSize overlap fuel (i + (chunkSize - overlap))
        (chunks ++ [String.intercalate " " (jsSlice words i (i + chunkSize))])
    else
      some chunks

/-- The embedding of `EmbeddingService.chunkText(text, chunkSize=512, overlap=50)`.
When the advance `chunkSize - overlap` is at least 1 the source loop performs
at most `words.length` iterations, so fuel `words.length + 1` is enough and
the result is `some chunks`; `none` faithfully marks the parameter choices on
which the source loop never exits. -/
def chunkText (text : String) (chunkSize : Int := 512) (overlap : Int := 50) :
    Option (List String) :=
  let words := splitWs text
  chunkGo words chunkSize overlap (words.length + 1) 0 []

/-- The successive word windows of the chunking loop, directly as word lists
(the source joins each window with a single space; this definition keeps the
window so that reconstruction of the original word sequence can be stated).
Requires `overlap < chunkSize`, which makes the advance positive and the
loop terminating. -/
def chunkWordsGo (words : List String) (n k : Nat) (h : k < n) (i : Nat) :
    List (List String) :=
  if _hi : i < words.length then
    (words.drop i).take n :: chunkWordsGo words n k h (i + (n - k))
  else []
termination_by words.length - i
decreasing_by omega

/-- JavaScript values that can appear in vector metadata. -/
inductive JVal where
  | num (q : Rat)
  | str (s : String)
  | nullv
deriving DecidableEq, Repr

/-- JavaScript truthiness of a metadata value. -/
def JVal.truthy : JVal → Bool
  | .num q => q ≠ 0
  | .str s => s ≠ ""
  | .nullv => false

/-- Truthiness of a possibly absent (`undefined`) value. -/
def truthyOpt : Option JVal → Bool
  | some v => v.truthy
  | none => false

/-- Property lookup on a JS object modelled as an association list in which a
later binding for the same key overrides an earlier one (the semantics of
object spread). -/
def objGet (o : List (String × JVal)) (k : String) : Option JVal :=
  o.reverse.lookup k

/-- Rendering of a metadata value inside a template literal, as JS does. -/
def jvalTemplate : Option JVal → String
  | some (.num q) => toString q
  | some (.str s) => s
  | some .nullv => "null"
  | none => "undefined"

/-- Number formatting used for averages: models `Number.prototype.toFixed(2)`
(round to two decimal places and render with exactly two fraction digits). -/
def fmt2 (q : Rat) : String :=
  let n : Int := Int.floor (q * 100 + 1 / 2)
  let ip := n / 100
  let fp := (n % 100).natAbs
  toString ip ++ "." ++ (if fp < 10 then "0" else "") ++ toString fp

/-- Average of a list of numbers, as computed by
`costs.reduce((sum, c) => sum + c, 0) / costs.length` in the source. -/
def avgQ (l : List Rat) : Rat :=
  l.sum / l.length

/-! Regex-based cost-breakdown extraction.  The source matches the patterns
`วัตถุดิบ[:\s]+([0-9,]+)`, `ค่าแรง[:\s]+([0-9,]+)`, `ค่าโสหุ้ย[:\s]+([0-9,]+)`
and `รวม[:\s]+([0-9,]+)` against the generated answer.  Because the character
classes `[:\s]` and `[0-9,]` are disjoint, a match at a given position is the
label followed by a non-empty maximal run of separators and then a non-empty
maximal run of digit-or-comma characters, and `String.match` finds the
leftmost such position. -/

/-- Characters of the regex class `[:\s]`. -/
def isSepChar (c : Char) : Bool :=
  c = ':' ∨ isWsChar c

/-- Characters of the regex class `[0-9,]`. -/
def isNumChar (c : Char) : Bool :=
  c.isDigit ∨ c = ','

/-- Remove a literal label from the front of a character list, or fail. -/
def chopLabel : List Char → List Char → Option (List Char)
  | [], cs => some cs
  | _ :: _, [] => none
  | l :: ls, c :: cs => if c = l then chopLabel ls cs else none

/-- Try to match `label[:\s]+([0-9,]+)` starting exactly at the head of `cs`;
returns the captured `[0-9,]+` run on success. -/
def matchLabelAt (label : List Char) (cs : List Char) : Option (List Char) :=
  match chopLabel label cs with
  | none => none
  | some rest =>
    if (rest.takeWhile isSepChar).isEmpty then none
    else
      let afterSeps := rest.dropWhile isSepChar
      let digits := afterSeps.takeWhile isNumChar
      if digits.isEmpty then none else some digits

/-- Leftmost match of `label[:\s]+([0-9,]+)` in a character list, as
`String.prototype.match` finds it; returns the first capture group. -/
def findLabelNum (label : List Char) : List Char → Option (List Char)
  | [] => none
  | c :: rest =>
    match matchLabelAt label (c :: rest) with
    | some cap => some cap
    | none => findLabelNum label rest

/-- Numeric value of a digit list. -/
def digitsToNat (ds : List Char) : Nat :=
  ds.foldl (fun a c => a * 10 + (c.toNat - 48)) 0

/-- Models `parseFloat(capture.replace(/,/g, ''))` on a `[0-9,]+` capture:
strip the commas and read the remaining digits; `none` models the `NaN`
produced when the capture consisted of commas only. -/
def parseCapture (cap : List Char) : Option Nat :=
  let ds := cap.filter (fun c => c ≠ ',')
  if ds.isEmpty then none else some (digitsToNat ds)

/-- The optional structured cost breakdown.  A field is `none` when the
corresponding key is absent from the JS object, and `some v` when present,
where `v` is the parsed number (`Option Nat`, `none` standing for `NaN`). -/
structure CostBreakdown where
  material : Option (Option Nat) := none
  labor : Option (Option Nat) := none
  overhead : Option (Option Nat) := none
  total : Option (Option Nat) := none
deriving DecidableEq, Repr

/-- The embedding of `RAGService.extractCostBreakdown(answer, costContext)`:
scan the answer for the four Thai-labelled numeric fields and return the
breakdown only if at least one matched (`undefined` otherwise).  The
`costContext` argument is accepted and ignored, as in the source. -/
def extractCostBreakdown (answer : String) (_costContext : String) :
    Option CostBreakdown :=
  let m := findLabelNum "วัตถุดิบ".data answer.data
  let l := findLabelNum "ค่าแรง".data answer.data
  let o := findLabelNum "ค่าโสหุ้ย".data answer.data
  let t := findLabelNum "รวม".data answer.data
  let breakdown : CostBreakdown :=
    { material := m.map parseCapture
      labor := l.map parseCapture
      overhead := o.map parseCapture
      total := t.map parseCapture }
  if m.isSome ∨ l.isSome ∨ o.isSome ∨ t.isSome then some breakdown else none

/-! The indexing pipeline (`RAGService.indexDocument`). -/

/-- The deterministic vector key `doc_<documentId>_chunk_<index>`. -/
def vecId (documentId i : Nat) : String :=
  "doc_" ++ toString documentId ++ "_chunk_" ++ toString i

/-- The three metadata fields the pipeline writes before spreading the
caller-supplied metadata over them. -/
def baseMeta (documentId i : Nat) (chunk : String) : List (String × JVal) :=
  [("document_id", .num documentId), ("chunk_index", .num i),
    ("chunk_text", .str chunk)]

/-- A vector-index entry `(id, values, metadata)`; `V` is the embedding
vector type (opaque to this pipeline). -/
structure VectorEntry (V : Type) where
  id : String
  values : V
  metadata : List (String × JVal)
deriving DecidableEq

/-- A `vector_metadata` row written to the relational store. -/
structure ChunkRecordRow where
  document_id : Nat
  chunk_index : Nat
  chunk_text : String
  vector_id : String
deriving DecidableEq, Repr

/-- Everything `indexDocument` writes to its collaborators: the vector-index
batch, the chunk-record rows, and the `(documentId, handle)` status update. -/
structure IndexOutcome (V : Type) where
  vectors : List (VectorEntry V)
  chunkRecords : List ChunkRecordRow
  statusUpdate : Nat × String
deriving DecidableEq

/-- The embedding of `RAGService.indexDocument(documentId, documentText,
metadata)`.  `embedBatch` stands for `generateBatchEmbeddings`; the indexed
access `embeddings[index]` is `List.get?`, so a batch result shorter than the
chunk list makes the whole call fail (`none`), as the JS `TypeError` would. -/
def indexDocument {V : Type} (embedBatch : List String → List V)
    (documentId : Nat) (documentText : String)
    (metadata : List (String × JVal)) : Option (IndexOutcome V) := do
  let chunks ← chunkText documentText 512 50
  let embeddings := embedBatch chunks
  let vectors ← chunks.enum.mapM (fun p =>
    (embeddings.get? p.1).map (fun emb =>
      { id := vecId documentId p.1
        values := emb
        metadata := baseMeta documentId p.1 p.2 ++ metadata }))
  let records := chunks.enum.map (fun p =>
    ChunkRecordRow.mk documentId p.1 p.2 (vecId documentId p.1))
  pure ⟨vectors, records, (documentId, "doc_" ++ toString documentId)⟩

/-! The query pipeline (`RAGService.query` and its private helpers). -/

/-- A row of the `documents` table, as far as the query pipeline reads it. -/
structure DocRow where
  filename : String
deriving DecidableEq, Repr

/-- A match returned by `vectorize.query`. -/
structure VectorMatch where
  id : String
  score : Rat
  metadata : Option (List (String × JVal))
deriving DecidableEq

/-- A source assembled by `retrieveSourceContext`: the spread metadata plus
the owning document's filename (when found) and the match score. -/
structure SourceRow where
  meta : List (String × JVal)
  filename : Option String
  score : Rat
deriving DecidableEq

/-- A project row, as read by `getCostContext`. -/
structure ProjectRow where
  name : String
  total_estimated_cost : Option Rat
  total_actual_cost : Option Rat
deriving DecidableEq, Repr

/-- The relational-store lookups `getCostContext` performs.  Each is an
`Except` so that a throwing lookup can be modelled; the lists carry the one
numeric field the source reads (`cost_per_unit` resp. `total_cost`). -/
structure CostDb where
  productionCosts : Except String (List Rat)
  projectById : Rat → Except String (Option ProjectRow)
  transportCosts : Rat → Except String (List Rat)
  installCosts : Rat → Except String (List Rat)

/-- All external collaborators of `RAGService.query`. -/
structure RagEnv (V : Type) where
  embed : String → Except String V
  search : V → Nat → Except String (List VectorMatch)
  getDoc : JVal → Option DocRow
  db : CostDb
  gen : String → String → Except String String

/-- The query input `{query, project_id?, topK?}`. -/
structure RAGQueryInput where
  query : String
  project_id : Option Rat
  topK : Option Nat

/-- One entry of the response's `sources` array. -/
structure SourceOut where
  document : String
  relevance : Rat
  chunk_text : Option JVal
deriving DecidableEq

/-- The `RAGResponse` returned to the route layer. -/
structure RAGResponse where
  answer : String
  sources : List SourceOut
  cost_breakdown : Option CostBreakdown
deriving DecidableEq

/-- The source row built for one match whose `document_id` was truthy:
`{...metadata, filename: document?.filename, score: match.score}`. -/
def mkSourceRow {V : Type} (env : RagEnv V) (m : VectorMatch) : SourceRow :=
  let md := m.metadata.getD []
  { meta := md
    filename := (env.getDoc ((objGet md "document_id").getD .nullv)).map
      DocRow.filename
    score := m.score }

/-- The embedding of `RAGService.retrieveSourceContext(matches)`: iterate over
the matches in order and push a source row for each match whose metadata has a
truthy `document_id`, silently skipping the others. -/
def retrieveSourceContext {V : Type} (env : RagEnv V)
    (ms : List VectorMatch) : List SourceRow :=
  ms.foldl (fun acc m =>
    if truthyOpt (objGet (m.metadata.getD []) "document_id") then
      acc ++ [mkSourceRow env m]
    else acc) []

/-- Truthiness of the optional `project_id` (`if (projectId)`): absent or
zero is falsy. -/
def truthyNum : Option Rat → Bool
  | some q => q ≠ 0
  | none => false

/-- The fixed sentinel `getCostContext` returns when the accumulated context
string is empty. -/
def noCostDataSentinel : String := "ไม่มีข้อมูลต้นทุนในระบบ"

/-- The context string accumulated inside `getCostContext`'s `try` block.
The source mutates a local `context` string and each failing lookup is caught
by the surrounding `try`/`catch`, so a failure returns whatever had been
accumulated so far — which this definition mirrors branch by branch. -/
def costContextRaw (db : CostDb) (projectId : Option Rat) : String :=
  match db.productionCosts with
  | .error _ => ""
  | .ok pcs =>
    let c1 := if pcs.length > 0 then
        "ต้นทุนการผลิตเฉลี่ยต่อหน่วย: " ++ fmt2 (avgQ pcs) ++ " บาท\n"
      else ""
    if truthyNum projectId then
      let pid := projectId.getD 0
      match db.projectById pid with
      | .error _ => c1
      | .ok projOpt =>
        let c2 := c1 ++ (match projOpt with
          | some p =>
            "\nโปรเจค: " ++ p.name ++ "\n" ++
              "ต้นทุนประมาณการ: " ++ toString (p.total_estimated_cost.getD 0) ++
              " บาท\n" ++
              "ต้นทุนจริง: " ++ toString (p.total_actual_cost.getD 0) ++ " บาท\n"
          | none => "")
        match db.transportCosts pid with
        | .error _ => c2
        | .ok tcs =>
          let c3 := c2 ++ (if tcs.length > 0 then
              "ต้นทุนขนส่งเฉลี่ย: " ++ fmt2 (avgQ tcs) ++ " บาท\n"
            else "")
          match db.installCosts pid with
          | .error _ => c3
          | .ok ics =>
            c3 ++ (if ics.length > 0 then
                "ต้นทุนติดตั้งเฉลี่ย: " ++ fmt2 (avgQ ics) ++ " บาท\n"
              else "")
    else c1

/-- The embedding of `RAGService.getCostContext(projectId)`:
`return context || 'ไม่มีข้อมูลต้นทุนในระบบ'`. -/
def getCostContext (db : CostDb) (projectId : Option Rat) : String :=
  let context := costContextRaw db projectId
  if context = "" then noCostDataSentinel else context

/-- The system prompt `generateAnswer` assembles from the numbered chunk
excerpts and the cost context. -/
def systemPromptFor (sources : List SourceRow) (costContext : String) :
    String :=
  let documentContext := String.intercalate "\n\n"
    (sources.enum.map (fun p =>
      "[เอกสาร " ++ toString (p.1 + 1) ++ "]: " ++
        jvalTemplate (objGet p.2.meta "chunk_text")))
  "คุณเป็นผู้เชี่ยวชาญด้านการวิเคราะห์ต้นทุนสำหรับบริษัทผลิตคอนกรีตพรีคาสท์ในประเทศไทย\n\nบทบาทของคุณ:\n- วิเคราะห์ต้นทุนการผลิต ขนส่ง และติดตั้ง\n- ให้การประมาณการต้นทุนที่แม่นยำจากข้อมูลในอดีต\n- อธิบายการแบ่งต้นทุนอย่างชัดเจนเป็นภาษาไทย\n- แนะนำกลยุทธ์การลดต้นทุน\n\nบริบทจากเอกสาร:\n" ++
    documentContext ++ "\n\nข้อมูลต้นทุนปัจจุบัน:\n" ++ costContext ++
    "\n\nแนวทางในการตอบ:\n- อ้างอิงแหล่งที่มาเมื่อพูดถึงเอกสารเฉพาะ\n- ใช้หน่วยเงินบาท (฿) สำหรับค่าทั้งหมด\n- จัดรูปแบบตัวเลขด้วยเครื่องหมายจุลภาค (เช่น 8,500 บาท)\n- ให้รายละเอียดและแบ่งย่อยที่ชัดเจน\n- ถ้าข้อมูลไม่เพียงพอ ให้ระบุชัดเจนว่าขาดอะไร"

/-- The fixed string returned when the generation call succeeds but yields a
falsy `response` field. -/
def emptyAnswerFallback : String := "ไม่สามารถสร้างคำตอบได้"

/-- The fixed user-facing apology returned when the generation call throws. -/
def generationErrorFallback : String :=
  "เกิดข้อผิดพลาดในการสร้างคำตอบ กรุณาลองใหม่อีกครั้ง"

/-- The embedding of `RAGService.generateAnswer(query, sources, costContext)`:
a throwing generation call is caught and converted into the fixed apology
string; an empty (falsy) response field becomes `emptyAnswerFallback`. -/
def generateAnswer {V : Type} (env : RagEnv V) (query : String)
    (sources : List SourceRow) (costContext : String) : String :=
  match env.gen (systemPromptFor sources costContext) query with
  | .ok r => if r = "" then emptyAnswerFallback else r
  | .error _ => generationErrorFallback

/-- The effective top-K: `input.topK || 5` (absent or zero gives 5). -/
def jsTopK : Option Nat → Nat
  | some k => if k = 0 then 5 else k
  | none => 5

/-- One entry of the response's `sources` array:
`{document: s.filename || 'Unknown', relevance: s.score, chunk_text: s.chunk_text}`. -/
def sourceToOut (s : SourceRow) : SourceOut :=
  { document := match s.filename with
      | some f => if f = "" then "Unknown" else f
      | none => "Unknown"
    relevance := s.score
    chunk_text := objGet s.meta "chunk_text" }

/-- The embedding of `RAGService.query(input)`.  Failures of the embedding or
vector-search calls escape the pipeline's `try` block and are re-thrown as the
generic `'Failed to process query'`; every later step is total. -/
def ragQuery {V : Type} (env : RagEnv V) (input : RAGQueryInput) :
    Except String RAGResponse :=
  match env.embed input.query with
  | .error _ => .error "Failed to process query"
  | .ok queryEmbedding =>
    match env.search queryEmbedding (jsTopK input.topK) with
    | .error _ => .error "Failed to process query"
    | .ok ms =>
      let sources := retrieveSourceContext env ms
      let costContext := getCostContext env.db input.project_id
      let answer := generateAnswer env input.query sources costContext
      let costBreakdown := extractCostBreakdown answer costContext
      .ok { answer := answer
            sources := sources.map sourceToOut
            cost_breakdown := costBreakdown }

/-- The embedding of `EmbeddingService.cosineSimilarity(embedding1, embedding2)`,
with JS floats idealized as real numbers (`Math.sqrt` is `Real.sqrt`, which is
why this single definition is noncomputable; exact floating-point rounding is
outside the scope of this model).  The dimension guard precedes any
arithmetic, exactly as in the source; after it the index loop ranges over
positions present in both vectors, i.e. over `zip`. -/
noncomputable def cosineSimilarity (embedding1 embedding2 : List Real) :
    Except String Real :=
  if embedding1.length ≠ embedding2.length then
    Except.error "Embeddings must have the same dimensions"
  else
    let dotProduct := ((embedding1.zip embedding2).map (fun p => p.1 * p.2)).sum
    let norm1 := (embedding1.map (fun x => x * x)).sum
    let norm2 := (embedding2.map (fun x => x * x)).sum
    Except.ok (dotProduct / (Real.sqrt norm1 * Real.sqrt norm2))

/-- A cost lookup that contributes no context line: it either returned no
rows or threw (the surrounding `try`/`catch` treats a throw as no data). -/
def emptyOrErr : Except String (List Rat) → Prop
  | .ok l => l = []
  | .error _ => True

/-- A project lookup that contributes no context lines: it either found no
project or threw. -/
def projMissing : Except String (Option ProjectRow) → Prop
  | .ok po => po = none
  | .error _ => True

/-- No cost data exists anywhere for this call: the production-cost lookup
yields nothing, and, when a truthy project id is supplied, so do the project,
transportation and installation lookups. -/
def noCostData (db : CostDb) (pid : Option Rat) : Prop :=
  emptyOrErr db.productionCosts ∧
  ∀ q, pid = some q → q ≠ 0 →
    projMissing (db.projectById q) ∧ emptyOrErr (db.transportCosts q) ∧
      emptyOrErr (db.installCosts q)

/-- A store with no cost data at all (used to witness the sentinel case). -/
def dbEmpty : CostDb :=
  { productionCosts := .ok []
    projectById := fun _ => .ok none
    transportCosts := fun _ => .ok []
    installCosts := fun _ => .ok [] }

/-- A concrete vector-search match carrying a truthy `document_id` (used to
witness the query pipeline's generation-failure path). -/
def matchW : VectorMatch :=
  { id := "doc_1_chunk_0"
    score := 9 / 10
    metadata := some [("document_id", .num 1), ("chunk_index", .num 0),
      ("chunk_text", .str "precast cost sheet")] }

/-- A concrete environment whose retrieval succeeds with one match and whose
text-generation call always throws. -/
def envW : RagEnv Unit :=
  { embed := fun _ => .ok ()
    search := fun _ _ => .ok [matchW]
    getDoc := fun _ => some ⟨"costs.pdf"⟩
    db := dbEmpty
    gen := fun _ _ => .error "model unavailable" }

/-- A concrete query input. -/
def inputW : RAGQueryInput :=
  { query := "ต้นทุนเฉลี่ย", project_id := none, topK := none }

/-! ### Theorems -/

/-- The word list produced by `splitWsGo` is never empty: the base case
returns a singleton and every other branch prepends to a recursive call. -/
theorem splitWsGo_ne_nil (cs : List Char) :
    ∀ cur inWs, splitWsGo cs cur inWs ≠ [] := by
  induction cs with
  | nil => intro cur inWs; simp [splitWsGo]
  | cons c rest ih =>
    intro cur inWs
    simp only [splitWsGo]
    by_cases hws : isWsChar c
    · by_cases hin : inWs
      · simpa [hws, hin] using ih cur true
      · simp [hws, hin]
    · simpa [hws] using ih (c :: cur) false

/-- JavaScript `split(/\s+/)` always returns at least one element
(the empty string splits to `[""]`). -/
theorem splitWs_ne_nil (s : String) : splitWs s ≠ [] :=
  splitWsGo_ne_nil s.data [] false

/-- When the advance `chunkSize - overlap` is not positive, the loop variable
never escapes `i ≤ 0 < words.length`, so the source's `while` loop never
exits: no amount of fuel completes it. -/
theorem chunkGo_stall (words : List String) (chunkSize overlap : Int)
    (hov : chunkSize ≤ overlap) (hw : words ≠ []) :
    ∀ (fuel : Nat) (i : Int), i ≤ 0 → ∀ acc,
      chunkGo words chunkSize overlap fuel i acc = none := by
  intro fuel
  induction fuel with
  | zero => intro i _ acc; rfl
  | succ n ih =>
    intro i hi acc
    have hlen : 0 < words.length := List.length_pos.mpr hw
    have hcond : i < (words.length : Int) := by
      have : (0 : Int) < (words.length : Int) := by exact_mod_cast hlen
      omega
    simp only [chunkGo, if_pos hcond]
    exact ih (i + (chunkSize - overlap)) (by omega) _


/-- C1 counterexample: on `"a b c d e f g h"` with chunk size 4 and overlap 2
the source loop also runs at window start 6 (since `6 < 8`), emitting a fourth
chunk `"g h"`, so the output is not the claimed three-chunk list. -/
theorem chunkText_c1_counterexample :
    chunkText "a b c d e f g h" 4 2 ≠ some ["a b c d", "c d e f", "e f g h"] := by
  decide

/-- C1 amended: `chunkText "a b c d e f g h" 4 2` returns exactly the four
chunks `["a b c d", "c d e f", "e f g h", "g h"]`, in that order — the window
starts are 0, 2, 4 and 6, and the final short window `"g h"` is emitted
because its start 6 is still below the word count 8. -/
theorem chunkText_c1_amended :
    chunkText "a b c d e f g h" 4 2
      = some ["a b c d", "c d e f", "e f g h", "g h"] := by
  decide

/-- C2: the code does NOT clamp the advance step.  Whenever
`overlap >= chunkSize` the advance `chunkSize - overlap` is zero or negative,
the loop variable never reaches the word count, and the `while` loop never
exits: the fueled loop returns `none` for every fuel value, and in particular
`chunkText` never produces a chunk list.  This contradicts the claimed
clamp-to-at-least-1 termination guarantee. -/
theorem chunkText_overlap_stall (text : String) (chunkSize overlap : Int)
    (hov : chunkSize ≤ overlap) :
    chunkText text chunkSize overlap = none ∧
    ∀ (fuel : Nat) (acc : List String),
      chunkGo (splitWs text) chunkSize overlap fuel 0 acc = none := by
  constructor
  · exact chunkGo_stall _ _ _ hov (splitWs_ne_nil text) _ 0 le_rfl []
  · intro fuel acc
    exact chunkGo_stall _ _ _ hov (splitWs_ne_nil text) fuel 0 le_rfl acc

/-- Witness for `chunkText_overlap_stall` at the concrete failing input
`chunkText("a", 2, 2)`. -/
theorem chunkText_overlap_stall_witness :
    chunkText "a" 2 2 = none ∧ chunkGo (splitWs "a") 2 2 5 0 [] = none :=
  ⟨(chunkText_overlap_stall "a" 2 2 (by decide)).1,
   (chunkText_overlap_stall "a" 2 2 (by decide)).2 5 []⟩

/-- Slicing with non-negative natural bounds agrees with `drop`/`take`. -/
theorem jsSlice_natCast (l : List String) (i n : Nat) :
    jsSlice l (i : Int) ((i : Int) + (n : Int)) = (l.drop i).take n := by
  simp only [jsSlice, jsIndexClamp]
  have hii : ¬((i : Int) < 0) := by omega
  have hin : ¬((i : Int) + (n : Int) < 0) := by omega
  rw [if_neg hii, if_neg hin]
  have h1 : ((i : Int)).toNat = i := Int.toNat_natCast i
  have h2 : ((i : Int) + (n : Int)).toNat = i + n := by omega
  rw [h1, h2]
  by_cases hl : i ≤ l.length
  · rw [min_eq_left hl, List.take_eq_take]
    simp only [List.length_drop]
    omega
  · have hmin : min i l.length = l.length := by omega
    rw [hmin, List.drop_length]
    rw [List.drop_eq_nil_of_le (by omega : l.length ≤ i)]
    simp

/-- With a positive advance (`overlap < chunkSize`), the fueled loop finishes
whenever the fuel exceeds the remaining word count, and its chunks are exactly
the space-joined word windows of `chunkWordsGo`. -/
theorem chunkGo_eq_chunkWords (words : List String) (n k : Nat) (h : k < n) :
    ∀ (fuel i : Nat) (acc : List String), words.length - i < fuel →
      chunkGo words (n : Int) (k : Int) fuel (i : Int) acc
        = some (acc ++ (chunkWordsGo words n k h i).map (String.intercalate " ")) := by
  intro fuel
  induction fuel with
  | zero => intro i acc hf; omega
  | succ m ih =>
    intro i acc hf
    by_cases hi : i < words.length
    · have hcond : (i : Int) < (words.length : Int) := by exact_mod_cast hi
      have hstep : (i : Int) + ((n : Int) - (k : Int)) = ((i + (n - k) : Nat) : Int) := by
        omega
      have hunfold : chunkWordsGo words n k h i
          = (words.drop i).take n :: chunkWordsGo words n k h (i + (n - k)) := by
        conv_lhs => rw [chunkWordsGo]
        rw [dif_pos hi]
      simp only [chunkGo, if_pos hcond]
      rw [hstep, jsSlice_natCast, ih (i + (n - k)) _ (by omega), hunfold]
      simp
    · have hcond : ¬((i : Int) < (words.length : Int)) := by
        simp only [not_lt]
        exact_mod_cast Nat.le_of_not_lt hi
      have hunfold : chunkWordsGo words n k h i = [] := by
        conv_lhs => rw [chunkWordsGo]
        rw [dif_neg hi]
      simp only [chunkGo, if_neg hcond]
      rw [hunfold]
      simp

/-- After dropping the first `k` (overlap) words of every window, the windows
starting at `i` concatenate to the word suffix from position `i + k`. -/
theorem chunkWordsGo_drop_flatten (words : List String) (n k : Nat) (h : k < n) :
    ∀ (i : Nat), ((chunkWordsGo words n k h i).map (fun w => w.drop k)).flatten
      = words.drop (i + k) := by
  suffices H : ∀ (m i : Nat), words.length - i ≤ m →
      ((chunkWordsGo words n k h i).map (fun w => w.drop k)).flatten
        = words.drop (i + k) by
    intro i; exact H (words.length - i) i le_rfl
  intro m
  induction m with
  | zero =>
    intro i him
    rw [chunkWordsGo, dif_neg (by omega : ¬ i < words.length)]
    simp [List.drop_eq_nil_of_le (by omega : words.length ≤ i + k)]
  | succ m ih =>
    intro i him
    by_cases hi : i < words.length
    · rw [chunkWordsGo, dif_pos hi]
      simp only [List.map_cons, List.flatten_cons]
      rw [ih (i + (n - k)) (by omega)]
      have e1 : ((words.drop i).take n).drop k = (words.drop (i + k)).take (n - k) := by
        rw [List.drop_take, List.drop_drop]
      have e2 : words.drop (i + (n - k) + k) = (words.drop (i + k)).drop (n - k) := by
        rw [List.drop_drop]
        congr 1
        omega
      rw [e1, e2, List.take_append_drop]
    · rw [chunkWordsGo, dif_neg hi]
      simp [List.drop_eq_nil_of_le (by omega : words.length ≤ i + k)]

/-- `chunkText` with a positive advance is total and returns the joined word
windows. -/
theorem chunkText_eq_chunkWords (text : String) (n k : Nat) (h : k < n) :
    chunkText text (n : Int) (k : Int)
      = some ((chunkWordsGo (splitWs text) n k h 0).map (String.intercalate " ")) := by
  simp only [chunkText]
  exact chunkGo_eq_chunkWords (splitWs text) n k h _ 0 [] (by omega)

/-- C3: for every non-empty text and every `overlap k < chunkSize n`, the
chunking succeeds with at least one chunk (the chunk list is `w :: ws`), and
concatenating the chunks' word windows after dropping the first `k` words of
every window except the first reconstructs the original word sequence of the
text. -/
theorem chunkText_reconstructs (text : String) (n k : Nat) (hk : k < n)
    (_hne : text ≠ "") :
    ∃ (w : List String) (ws : List (List String)),
      chunkText text (n : Int) (k : Int)
        = some ((w :: ws).map (String.intercalate " ")) ∧
      w ++ (ws.map (fun c => c.drop k)).flatten = splitWs text := by
  have hlen : 0 < (splitWs text).length :=
    List.length_pos.mpr (splitWs_ne_nil text)
  have hgo : chunkWordsGo (splitWs text) n k hk 0
      = ((splitWs text).take n) :: chunkWordsGo (splitWs text) n k hk (0 + (n - k)) := by
    rw [chunkWordsGo, dif_pos hlen]
    simp
  refine ⟨(splitWs text).take n,
    chunkWordsGo (splitWs text) n k hk (0 + (n - k)), ?_, ?_⟩
  · rw [chunkText_eq_chunkWords text n k hk, hgo]
  · rw [chunkWordsGo_drop_flatten]
    have hnk : 0 + (n - k) + k = n := by omega
    rw [hnk, List.take_append_drop]

/-- Witness for `chunkText_reconstructs` at `text = "a b c"`, `n = 2`,
`k = 1`: the chunks are `["a b", "b c", "c"]` and the overlap-stripped
windows concatenate back to `["a", "b", "c"]`. -/
theorem chunkText_reconstructs_witness :
    ∃ (w : List String) (ws : List (List String)),
      chunkText "a b c" (2 : Int) (1 : Int)
        = some ((w :: ws).map (String.intercalate " ")) ∧
      w ++ (ws.map (fun c => c.drop 1)).flatten = splitWs "a b c" :=
  chunkText_reconstructs "a b c" 2 1 (by decide) (by decide)

/-- C5 counterexample: the source's patterns use the Thai labels
(`วัตถุดิบ`, `ค่าแรง`, `ค่าโสหุ้ย`, `รวม`), so an answer containing the literal
English-labelled field `"total: 8,500"` matches none of them and the
extraction returns no breakdown at all, not `{total: 8500}`. -/
theorem extractCostBreakdown_english_counterexample :
    extractCostBreakdown "total: 8,500" "" = none ∧
    extractCostBreakdown "total: 8,500" ""
      ≠ some { material := none, labor := none, overhead := none,
               total := some (some 8500) } := by
  decide

/-- C5 amended: on an answer containing the code's total-labelled field
`"รวม: 8,500"` (the source's label for the total) and no other labelled
fields, extraction returns exactly `{total: 8500}` with the material, labor
and overhead fields absent. -/
theorem extractCostBreakdown_total_amended :
    extractCostBreakdown "รวม: 8,500" ""
      = some { material := none, labor := none, overhead := none,
               total := some (some 8500) } := by
  decide

/-- Multiplying a vector pointwise with itself squares each component. -/
theorem zip_self_map_mul (v : List Real) :
    (v.zip v).map (fun p => p.1 * p.2) = v.map (fun x => x * x) := by
  induction v with
  | nil => rfl
  | cons x xs ih => simp [ih]

/-- A sum of squares is non-negative. -/
theorem sum_sq_nonneg (v : List Real) : 0 ≤ (v.map (fun x => x * x)).sum := by
  induction v with
  | nil => simp
  | cons x xs ih =>
    simp only [List.map_cons, List.sum_cons]
    nlinarith [mul_self_nonneg x]

/-- A sum of squares with at least one non-zero entry is positive. -/
theorem sum_sq_pos (v : List Real) (x : Real) (hx : x ∈ v) (hx0 : x ≠ 0) :
    0 < (v.map (fun y => y * y)).sum := by
  induction v with
  | nil => simp at hx
  | cons a as ih =>
    simp only [List.map_cons, List.sum_cons]
    rcases List.mem_cons.mp hx with h | h
    · subst h
      have h1 := sum_sq_nonneg as
      nlinarith [mul_self_pos.mpr hx0]
    · have h1 := ih h
      nlinarith [mul_self_nonneg a]

/-- C8: under the real-number idealization of JS floats, `cosineSimilarity`
of any non-zero vector with itself is exactly 1, and the call fails with the
dimension-mismatch error exactly when the two vectors have different
lengths. -/
theorem cosineSimilarity_spec :
    (∀ v : List Real, (∃ x ∈ v, x ≠ 0) → cosineSimilarity v v = Except.ok 1) ∧
    (∀ a b : List Real,
      (∃ e, cosineSimilarity a b = Except.error e) ↔ a.length ≠ b.length) := by
  constructor
  · intro v hv
    obtain ⟨x, hx, hx0⟩ := hv
    have hS : 0 < (v.map (fun y => y * y)).sum := sum_sq_pos v x hx hx0
    simp only [cosineSimilarity, ne_eq, not_true_eq_false, if_false,
      zip_self_map_mul]
    rw [Real.mul_self_sqrt hS.le, div_self hS.ne']
  · intro a b
    by_cases h : a.length = b.length
    · simp [cosineSimilarity, h]
    · simp [cosineSimilarity, h]

/-- Witness for `cosineSimilarity_spec`: the one-component non-zero vector
`[1]` has self-similarity 1, and comparing `[1]` with `[1, 0]` hits the
dimension-mismatch characterization. -/
theorem cosineSimilarity_spec_witness :
    cosineSimilarity [(1 : Real)] [(1 : Real)] = Except.ok 1 ∧
    ((∃ e, cosineSimilarity [(1 : Real)] [(1 : Real), 0] = Except.error e)
      ↔ ([(1 : Real)].length ≠ [(1 : Real), 0].length)) :=
  ⟨cosineSimilarity_spec.1 [1] ⟨1, List.mem_singleton.mpr rfl, one_ne_zero⟩,
   cosineSimilarity_spec.2 [1] [1, 0]⟩

/-- C9: `retrieveSourceContext` keeps exactly the matches whose metadata has
a truthy `document_id` (missing metadata, a missing key, `null` and the id 0
are all falsy and silently dropped), in the order the index returned them, so
the source list never exceeds the match count. -/
theorem retrieveSourceContext_spec {V : Type} (env : RagEnv V)
    (ms : List VectorMatch) :
    retrieveSourceContext env ms
      = (ms.filter (fun m =>
          truthyOpt (objGet (m.metadata.getD []) "document_id"))).map
          (mkSourceRow env) ∧
    (retrieveSourceContext env ms).length ≤ ms.length := by
  have key : ∀ (l : List VectorMatch) (acc : List SourceRow),
      l.foldl (fun acc m =>
          if truthyOpt (objGet (m.metadata.getD []) "document_id") then
            acc ++ [mkSourceRow env m]
          else acc) acc
        = acc ++ (l.filter (fun m =>
            truthyOpt (objGet (m.metadata.getD []) "document_id"))).map
            (mkSourceRow env) := by
    intro l
    induction l with
    | nil => intro acc; simp
    | cons m l ih =>
      intro acc
      simp only [List.foldl_cons, List.filter_cons]
      by_cases hm : truthyOpt (objGet (m.metadata.getD []) "document_id")
      · rw [if_pos hm, ih]
        simp [hm]
      · rw [if_neg hm, ih]
        simp [hm]
  have h1 : retrieveSourceContext env ms
      = (ms.filter (fun m =>
          truthyOpt (objGet (m.metadata.getD []) "document_id"))).map
          (mkSourceRow env) := by
    simpa [retrieveSourceContext] using key ms []
  refine ⟨h1, ?_⟩
  rw [h1, List.length_map]
  exact List.length_filter_le _ ms

/-- Under `noCostData`, every branch of the `try` block appends nothing, so
the accumulated context string is empty. -/
theorem costContextRaw_empty (db : CostDb) (pid : Option Rat)
    (hnd : noCostData db pid) : costContextRaw db pid = "" := by
  obtain ⟨h1, h2⟩ := hnd
  unfold costContextRaw
  cases hpc : db.productionCosts with
  | error e => rfl
  | ok pcs =>
    rw [hpc] at h1
    have hpcs : pcs = [] := h1
    subst hpcs
    simp only [List.length_nil, gt_iff_lt, lt_self_iff_false, if_false]
    by_cases ht : truthyNum pid
    · obtain ⟨q, hq⟩ : ∃ q, pid = some q := by
        cases pid with
        | none => simp [truthyNum] at ht
        | some q => exact ⟨q, rfl⟩
      have hq0 : q ≠ 0 := by
        rw [hq] at ht
        simpa [truthyNum] using ht
      obtain ⟨hp, htc, hic⟩ := h2 q hq hq0
      rw [if_pos ht, hq]
      simp only [Option.getD_some]
      cases hpj : db.projectById q with
      | error e => rfl
      | ok po =>
        rw [hpj] at hp
        have hpo : po = none := hp
        subst hpo
        cases htr : db.transportCosts q with
        | error e => simp
        | ok tcs =>
          rw [htr] at htc
          have htcs : tcs = [] := htc
          subst htcs
          simp only [List.length_nil, gt_iff_lt, lt_self_iff_false, if_false]
          cases hin : db.installCosts q with
          | error e => simp
          | ok ics =>
            rw [hin] at hic
            have hics : ics = [] := hic
            subst hics
            simp
    · rw [if_neg ht]

/-- C7: `getCostContext` never returns the empty string — in particular it is
total even though every underlying lookup may throw, because each throwing
branch is caught — and whenever no cost data exists anywhere it returns the
fixed no-cost-data sentinel. -/
theorem getCostContext_spec (db : CostDb) (pid : Option Rat) :
    getCostContext db pid ≠ "" ∧
    (noCostData db pid → getCostContext db pid = noCostDataSentinel) := by
  constructor
  · simp only [getCostContext]
    by_cases h : costContextRaw db pid = ""
    · rw [if_pos h]
      decide
    · rw [if_neg h]
      exact h
  · intro hnd
    simp [getCostContext, costContextRaw_empty db pid hnd]

/-- Witness for `getCostContext_spec` on a store with no cost rows at all and
no project id: the result is the sentinel, which is non-empty. -/
theorem getCostContext_spec_witness :
    getCostContext dbEmpty none ≠ "" ∧
    getCostContext dbEmpty none = noCostDataSentinel :=
  ⟨(getCostContext_spec dbEmpty none).1,
   (getCostContext_spec dbEmpty none).2
     ⟨rfl, fun q hq _ => absurd hq (by simp)⟩⟩

/-- C6: when the embedding and vector-search calls succeed but the
text-generation call the pipeline issues throws, `ragQuery` still returns a
result (`Except.ok`): its answer is the fixed apology fallback and its
sources are exactly the rows derived from the retrieval matches — non-empty
whenever the derived row list is. -/
theorem ragQuery_generation_fallback {V : Type} (env : RagEnv V)
    (input : RAGQueryInput) (qe : V) (ms : List VectorMatch)
    (hemb : env.embed input.query = .ok qe)
    (hsearch : env.search qe (jsTopK input.topK) = .ok ms)
    (hgen : ∃ e, env.gen
        (systemPromptFor (retrieveSourceContext env ms)
          (getCostContext env.db input.project_id)) input.query = .error e)
    (hsrc : retrieveSourceContext env ms ≠ []) :
    ∃ r, ragQuery env input = .ok r ∧
      r.answer = generationErrorFallback ∧
      r.sources = (retrieveSourceContext env ms).map sourceToOut ∧
      r.sources ≠ [] := by
  obtain ⟨e, hg⟩ := hgen
  simp only [ragQuery, hemb, hsearch]
  refine ⟨_, rfl, ?_, rfl, ?_⟩
  · simp only [generateAnswer, hg]
  · simpa using hsrc

/-- Witness for `ragQuery_generation_fallback`: in `envW` retrieval returns
the single match `matchW` (truthy `document_id`) and the generation call
always throws, and the pipeline still answers with the apology string and the
one derived source. -/
theorem ragQuery_generation_fallback_witness :
    ∃ r, ragQuery envW inputW = .ok r ∧
      r.answer = generationErrorFallback ∧
      r.sources = (retrieveSourceContext envW [matchW]).map sourceToOut ∧
      r.sources ≠ [] :=
  ragQuery_generation_fallback envW inputW () [matchW] rfl rfl
    ⟨"model unavailable", rfl⟩ (by decide)

/-- Mapping an option-valued index lookup over an index/value list succeeds
when every index is in bounds, and any pointwise projection of the result is
the corresponding map over the list. -/
theorem mapM_enum_get {V β : Type} (embs : List V) :
    ∀ (l : List (Nat × String)), (∀ p ∈ l, p.1 < embs.length) →
    ∀ (mk : Nat × String → V → β),
    ∃ out, l.mapM (fun p => (embs.get? p.1).map (mk p)) = some out ∧
      out.length = l.length ∧
      ∀ {γ : Type} (proj : β → γ) (pg : Nat × String → γ),
        (∀ p v, proj (mk p v) = pg p) → out.map proj = l.map pg := by
  intro l
  induction l with
  | nil =>
    intro _ mk
    exact ⟨[], rfl, rfl, by intro γ proj pg _; simp⟩
  | cons p l ih =>
    intro h mk
    have hp : p.1 < embs.length := h p (List.mem_cons_self p l)
    obtain ⟨out, hout, hlen, hproj⟩ :=
      ih (fun q hq => h q (List.mem_cons_of_mem p hq)) mk
    refine ⟨mk p (embs.get ⟨p.1, hp⟩) :: out, ?_, by simp [hlen], ?_⟩
    · rw [List.mapM_cons, List.get?_eq_get hp, hout]
      rfl
    · intro γ proj pg hcomm
      simp only [List.map_cons, hcomm, hproj proj pg hcomm]

/-- Unfolding of `indexDocument` when chunking succeeds and the batch
embedding call returns one vector per chunk: the write set is fully
determined. -/
theorem indexDocument_run {V : Type} (embedBatch : List String → List V)
    (docId : Nat) (text : String) (meta : List (String × JVal))
    (chunks : List String)
    (hc : chunkText text 512 50 = some chunks)
    (he : (embedBatch chunks).length = chunks.length) :
    ∃ out, indexDocument embedBatch docId text meta = some out ∧
      out.vectors.length = chunks.length ∧
      out.vectors.map (fun v => v.id)
        = (List.range chunks.length).map (vecId docId) ∧
      out.vectors.map (fun v => v.metadata)
        = chunks.enum.map (fun p => baseMeta docId p.1 p.2 ++ meta) ∧
      out.chunkRecords = chunks.enum.map (fun p =>
        ChunkRecordRow.mk docId p.1 p.2 (vecId docId p.1)) ∧
      out.statusUpdate = (docId, "doc_" ++ toString docId) := by
  have hmem : ∀ p ∈ chunks.enum, p.1 < (embedBatch chunks).length := by
    intro p hp
    rw [he]
    exact List.fst_lt_of_mem_enum hp
  obtain ⟨vecs, hvecs, hlen, hproj⟩ := mapM_enum_get (embedBatch chunks)
    chunks.enum hmem (fun p emb =>
      VectorEntry.mk (vecId docId p.1) emb (baseMeta docId p.1 p.2 ++ meta))
  refine ⟨⟨vecs, chunks.enum.map (fun p =>
    ChunkRecordRow.mk docId p.1 p.2 (vecId docId p.1)),
    (docId, "doc_" ++ toString docId)⟩, ?_, ?_, ?_, ?_, rfl, rfl⟩
  · simp only [indexDocument, hc, Option.bind_eq_bind, Option.some_bind, hvecs]
    rfl
  · rw [hlen, List.enum_length]
  · have := hproj (fun v => v.id) (fun p => vecId docId p.1) (fun _ _ => rfl)
    rw [this, ← List.enum_map_fst chunks, List.map_map]
    rfl
  · exact hproj (fun v => v.metadata)
      (fun p => baseMeta docId p.1 p.2 ++ meta) (fun _ _ => rfl)

/-- C4: when chunking a document's text yields `N` chunks and the batch
embedding call returns one vector per chunk, `indexDocument` builds exactly
`N` vector entries keyed `doc_<documentId>_chunk_0 .. doc_<documentId>_chunk_(N-1)`,
each whose metadata is the three pipeline fields — among them the document id
— merged with the caller-supplied metadata, and persists exactly `N` chunk
records with dense zero-based indices `0..N-1` whose `vector_id`s equal the
corresponding vector keys. -/
theorem indexDocument_spec {V : Type} (embedBatch : List String → List V)
    (docId : Nat) (text : String) (meta : List (String × JVal))
    (chunks : List String)
    (hc : chunkText text 512 50 = some chunks)
    (he : (embedBatch chunks).length = chunks.length) :
    ∃ out, indexDocument embedBatch docId text meta = some out ∧
      out.vectors.length = chunks.length ∧
      out.vectors.map (fun v => v.id)
        = (List.range chunks.length).map (vecId docId) ∧
      out.vectors.map (fun v => v.metadata)
        = chunks.enum.map (fun p => baseMeta docId p.1 p.2 ++ meta) ∧
      (∀ v ∈ out.vectors, ("document_id", JVal.num docId) ∈ v.metadata) ∧
      out.chunkRecords = chunks.enum.map (fun p =>
        ChunkRecordRow.mk docId p.1 p.2 (vecId docId p.1)) ∧
      out.chunkRecords.length = chunks.length ∧
      out.chunkRecords.map (fun r => r.chunk_index) = List.range chunks.length ∧
      out.chunkRecords.map (fun r => r.vector_id)
        = out.vectors.map (fun v => v.id) := by
  obtain ⟨out, hrun, hlen, hids, hmeta, hrecs, _⟩ :=
    indexDocument_run embedBatch docId text meta chunks hc he
  refine ⟨out, hrun, hlen, hids, hmeta, ?_, hrecs, ?_, ?_, ?_⟩
  · intro v hv
    have hm : v.metadata ∈ out.vectors.map (fun v => v.metadata) :=
      List.mem_map_of_mem _ hv
    rw [hmeta] at hm
    obtain ⟨p, _, hpe⟩ := List.mem_map.mp hm
    rw [← hpe]
    simp [baseMeta]
  · rw [hrecs, List.length_map, List.enum_length]
  · rw [hrecs, List.map_map, ← List.enum_map_fst chunks]
    rfl
  · rw [hrecs, hids, List.map_map, ← List.enum_map_fst chunks, List.map_map]
    rfl

/-- Witness for `indexDocument_spec`: a two-word document that chunks into
the single chunk `"hello world"`, a batch embedder returning one vector per
text, caller metadata tagging project 7, document id 3. -/
theorem indexDocument_spec_witness :
    ∃ out, indexDocument (fun l => l.map (fun _ => (0 : Rat))) 3 "hello world"
        [("project_id", JVal.num 7)] = some out ∧
      out.vectors.length = ["hello world"].length ∧
      out.vectors.map (fun v => v.id)
        = (List.range ["hello world"].length).map (vecId 3) ∧
      out.vectors.map (fun v => v.metadata)
        = ["hello world"].enum.map (fun p => baseMeta 3 p.1 p.2 ++
            [("project_id", JVal.num 7)]) ∧
      (∀ v ∈ out.vectors, ("document_id", JVal.num 3) ∈ v.metadata) ∧
      out.chunkRecords = ["hello world"].enum.map (fun p =>
        ChunkRecordRow.mk 3 p.1 p.2 (vecId 3 p.1)) ∧
      out.chunkRecords.length = ["hello world"].length ∧
      out.chunkRecords.map (fun r => r.chunk_index)
        = List.range ["hello world"].length ∧
      out.chunkRecords.map (fun r => r.vector_id)
        = out.vectors.map (fun v => v.id) :=
  indexDocument_spec (fun l => l.map (fun _ => (0 : Rat))) 3 "hello world"
    [("project_id", JVal.num 7)] ["hello world"] (by decide) rfl

/-- C10: splitting the empty string on whitespace yields the one-element
word list `[""]`, so `chunkText ""` (with the pipeline's default parameters)
returns exactly one chunk, the empty string; consequently `indexDocument`
on empty text still embeds one empty chunk and persists exactly one chunk
record with index 0. -/
theorem chunkText_empty_single :
    chunkText "" 512 50 = some [""] ∧
    ∀ (V : Type) (embedBatch : List String → List V) (docId : Nat)
      (meta : List (String × JVal)), (embedBatch [""]).length = 1 →
      ∃ out, indexDocument embedBatch docId "" meta = some out ∧
        out.vectors.length = 1 ∧
        out.chunkRecords = [ChunkRecordRow.mk docId 0 "" (vecId docId 0)] := by
  refine ⟨by decide, ?_⟩
  intro V embedBatch docId meta he
  obtain ⟨out, hrun, hlen, _, _, hrecs, _⟩ :=
    indexDocument_run embedBatch docId "" meta [""] (by decide) he
  exact ⟨out, hrun, hlen, by simpa using hrecs⟩

/-- Witness for `chunkText_empty_single` with a unit-vector batch embedder
and document id 7. -/
theorem chunkText_empty_single_witness :
    chunkText "" 512 50 = some [""] ∧
    ∃ out, indexDocument (fun l => l.map (fun _ => ())) 7 "" [] = some out ∧
      out.vectors.length = 1 ∧
      out.chunkRecords = [ChunkRecordRow.mk 7 0 "" (vecId 7 0)] :=
  ⟨chunkText_empty_single.1,
   chunkText_empty_single.2 Unit (fun l => l.map (fun _ => ())) 7 [] rfl⟩

end Precast
